import Mathlib

/-!
# Verification of the `crafty_novels` Stendhal tokenizer

A shallow embedding of the tokenizer core of the `crafty_novels` repository:
the token / metadata data model (`src/syntax/mod.rs`), the crate-level error
taxonomy and its unification map (`src/error.rs`), and the Stendhal tokenizer
entry points (`src/format/stendhal/mod.rs`).

The repository's `src/format/stendhal/parse.rs`, `src/format/stendhal/error.rs`
and `src/syntax/minecraft.rs` are not available; the definitions that stand in
for them are modelled from the specification and are marked as such in their
doc comments.  Everything else is translated directly from the Rust source.
-/

instance {ε α : Type} [DecidableEq ε] [DecidableEq α] : DecidableEq (Except ε α) := fun
  | Except.ok a, Except.ok b =>
    if h : a = b then isTrue (by rw [h]) else isFalse (by intro he; cases he; exact h rfl)
  | Except.ok _, Except.error _ => isFalse (by intro h; cases h)
  | Except.error _, Except.ok _ => isFalse (by intro h; cases h)
  | Except.error e, Except.error f =>
    if h : e = f then isTrue (by rw [h]) else isFalse (by intro he; cases he; exact h rfl)

namespace minecraft

/-- Modelled from the spec: the semantic format tags of
`crate::syntax::minecraft::Format` (`src/syntax/minecraft.rs` is absent).
The spec describes the tag set as the standard Minecraft format codes and
names `Italic` and `Reset` explicitly. -/
inductive Format where
  | Black
  | DarkBlue
  | DarkGreen
  | DarkAqua
  | DarkRed
  | DarkPurple
  | Gold
  | Gray
  | DarkGray
  | Blue
  | Green
  | Aqua
  | Red
  | LightPurple
  | Yellow
  | White
  | Obfuscated
  | Bold
  | Strikethrough
  | Underline
  | Italic
  | Reset
deriving DecidableEq

/-- Modelled from the spec: the format-code table, "a pure function/lookup
mapping a single character to a known format tag or no mapping"
(`src/syntax/minecraft.rs` is absent).  The spec's examples require that
`'o'` maps to `Italic`, `'r'` maps to `Reset`, and `'z'` has no mapping;
the rest is the standard Minecraft code table. -/
def formatCode : Char → Option Format
  | '0' => some Format.Black
  | '1' => some Format.DarkBlue
  | '2' => some Format.DarkGreen
  | '3' => some Format.DarkAqua
  | '4' => some Format.DarkRed
  | '5' => some Format.DarkPurple
  | '6' => some Format.Gold
  | '7' => some Format.Gray
  | '8' => some Format.DarkGray
  | '9' => some Format.Blue
  | 'a' => some Format.Green
  | 'b' => some Format.Aqua
  | 'c' => some Format.Red
  | 'd' => some Format.LightPurple
  | 'e' => some Format.Yellow
  | 'f' => some Format.White
  | 'k' => some Format.Obfuscated
  | 'l' => some Format.Bold
  | 'm' => some Format.Strikethrough
  | 'n' => some Format.Underline
  | 'o' => some Format.Italic
  | 'r' => some Format.Reset
  | _ => none

end minecraft

/-- Embeds `crate::syntax::Token` (`src/syntax/mod.rs`): a lexical token,
an abstract representation of text or formatting. -/
inductive Token where
  | Text (s : String)
  | Format (f : minecraft.Format)
  | Space
  | LineBreak
  | ParagraphBreak
  | ThematicBreak
deriving DecidableEq

namespace Token

/-- Embeds `Token::is_break` (`src/syntax/mod.rs`): whether a token
corresponds to some kind of line break. -/
def is_break : Token → Bool
  | LineBreak | ParagraphBreak | ThematicBreak | Space => true
  | _ => false

/-- Embeds `Token::is_white_space` (`src/syntax/mod.rs`): whether a token
corresponds to some kind of white space character. -/
def is_white_space (t : Token) : Bool :=
  (match t with | Space => true | _ => false) || t.is_break

/-- Embeds `Token::is_text` (`src/syntax/mod.rs`): whether a token is
`Token::Text`. -/
def is_text : Token → Bool
  | Text _ => true
  | _ => false

/-- Embeds `impl From<&mut Vec<char>> for Token` (`src/syntax/mod.rs`):
draining a character buffer builds a text node.  The Rust impl mutates the
buffer in place; the embedding returns the produced token together with the
buffer's state after the call (drained, hence empty). -/
def fromBuffer (value : List Char) : Token × List Char :=
  (Token.Text (String.mk value), [])

end Token

/-- Embeds `crate::syntax::Metadata` (`src/syntax/mod.rs`): metadata about a
literary work. -/
inductive Metadata where
  | Title (s : String)
  | Author (s : String)
deriving DecidableEq

/-- Embeds `crate::syntax::TokenList` (`src/syntax/mod.rs`): an immutable
pair of an ordered metadata sequence and an ordered token sequence.  The Rust
struct stores both behind `Arc`; sharing is irrelevant to the values, so the
embedding stores the sequences directly.  Equality is modelled from the spec
("Equality is structural (sequence and variant equality)"): the `PartialEq`
impl for `TokenList` is not among the available source files, only its
callers (the doc-test) are. -/
structure TokenList where
  metadata : List Metadata
  tokens : List Token
deriving DecidableEq

/-- Abstract stand-in for the payload of `std::io::Error`: only its identity
matters to the embedding. -/
structure IoError where
  code : Nat
deriving DecidableEq

/-- Abstract stand-in for `std::fmt::Error` (a unit struct in Rust). -/
structure FmtError where
deriving DecidableEq

/-- Abstract stand-in for the payload of `std::string::FromUtf8Error`: only
its identity matters to the embedding. -/
structure Utf8Error where
  code : Nat
deriving DecidableEq

namespace error

/-- Embeds `crate::error::Error` (`src/error.rs`): the various possible
errors for the crate. -/
inductive Error where
  | InvalidFormatCodeString (s : String)
  | NoSuchFormatCode (c : Char)
  | MissingFormatCode
  | NoSuchCharLiteral (c : Char)
  | UnexpectedEndOfIter
  | IncompleteOrMissingFrontmatter
  | UnexpectedToken (t : Token)
  | Io (e : IoError)
  | Fmt (e : FmtError)
  | Utf8 (e : Utf8Error)
deriving DecidableEq

/-- Embeds `crate::error::TokenizeError` (`src/error.rs`): the possible
errors encountered when parsing a document, in a flexible way.  The `Other`
variant boxes an arbitrary error in Rust; its payload is abstracted to a
string. -/
inductive TokenizeError where
  | NoSuchSyntaxItem
  | MalformedSyntaxItem
  | UnexpectedSyntaxItem
  | Other (s : String)
  | Io (e : IoError)
  | Fmt (e : FmtError)
  | Utf8 (e : Utf8Error)
deriving DecidableEq

/-- Embeds `impl From<Error> for TokenizeError` (`src/error.rs`): the lossy
categorization from the fine-grained crate error to the unified tokenizer
error. -/
def TokenizeError.fromError : Error → TokenizeError
  | Error.InvalidFormatCodeString _
  | Error.NoSuchFormatCode _
  | Error.MissingFormatCode
  | Error.UnexpectedEndOfIter
  | Error.IncompleteOrMissingFrontmatter => TokenizeError.MalformedSyntaxItem
  | Error.NoSuchCharLiteral _ => TokenizeError.NoSuchSyntaxItem
  | Error.UnexpectedToken _ => TokenizeError.UnexpectedSyntaxItem
  | Error.Io e => TokenizeError.Io e
  | Error.Fmt e => TokenizeError.Fmt e
  | Error.Utf8 e => TokenizeError.Utf8 e

end error

namespace Stendhal

/-- Modelled from the spec: the unified error surface of the Stendhal
tokenizer, `crate::format::stendhal::TokenizeError`
(`src/format/stendhal/error.rs` is absent; the entry points' doc comments in
`src/format/stendhal/mod.rs` name exactly these failure cases:
a missing format code, an unknown format code carrying the offending
character, incomplete or missing frontmatter, and an underlying I/O fault). -/
inductive TokenizeError where
  | MissingFormatCode
  | NoSuchFormatCode (c : Char)
  | IncompleteOrMissingFrontmatter
  | Io (e : IoError)
deriving DecidableEq

/-- The pending-text flush: the tokens contributed by the character buffer,
one `Text` token built by draining the buffer (`Token.fromBuffer`, the
embedding of `impl From<&mut Vec<char>> for Token`) when the buffer is
non-empty, nothing when it is empty (the spec flushes "pending text (if
any)", and `Text` runs are specified non-empty). -/
def textOf (buf : List Char) : List Token :=
  if buf.isEmpty then [] else [(Token.fromBuffer buf).1]

/-- Modelled from the spec: the character scan of `parse::line`
(`src/format/stendhal/parse.rs` is absent), following §4.2 of the spec:
`'§'` must be followed by a mapped format-code character (else fail with the
missing-format-code or no-such-format-code error), flushing pending text
before emitting `Format`; a space flushes pending text and emits `Space`; any
other character joins the pending-text buffer; at line end the pending text
is flushed and exactly one `LineBreak` is emitted.  `tokens` is the
caller-supplied accumulator, `buf` the pending-text buffer. -/
def parseChars : List Char → List Token → List Char → Except TokenizeError (List Token)
  | [], tokens, buf => Except.ok (tokens ++ textOf buf ++ [Token.LineBreak])
  | c :: rest, tokens, buf =>
    if c = '§' then
      match rest with
      | [] => Except.error TokenizeError.MissingFormatCode
      | c2 :: rest2 =>
        match minecraft.formatCode c2 with
        | some f => parseChars rest2 (tokens ++ textOf buf ++ [Token.Format f]) []
        | none => Except.error (TokenizeError.NoSuchFormatCode c2)
    else if c = ' ' then
      parseChars rest (tokens ++ textOf buf ++ [Token.Space]) []
    else
      parseChars rest tokens (buf ++ [c])

/-- Modelled from the spec: `parse::line` (`src/format/stendhal/parse.rs` is
absent), §4.2 step 1: a line beginning with the literal prefix `"#- "`
(hash, dash, space) emits `ThematicBreak` first and the remainder of the line
is scanned as ordinary content; any other line is scanned whole. -/
def lineChars (tokens : List Token) (cs : List Char) : Except TokenizeError (List Token) :=
  match cs with
  | '#' :: '-' :: ' ' :: rest => parseChars rest (tokens ++ [Token.ThematicBreak]) []
  | _ => parseChars cs tokens []

/-- The body loop of `tokenize_string` (`src/format/stendhal/mod.rs`):
`parse::line` invoked once per remaining line, in input order, threading the
single accumulator. -/
def tokenizeLines : List Token → List (List Char) → Except TokenizeError (List Token)
  | tokens, [] => Except.ok tokens
  | tokens, l :: rest =>
    match lineChars tokens l with
    | Except.ok t2 => tokenizeLines t2 rest
    | Except.error e => Except.error e

/-- Strip one trailing carriage return, as Rust's `str::lines` does for a
`"\r\n"` line ending. -/
def stripTrailingCR : List Char → List Char
  | [] => []
  | [c] => if c = '\r' then [] else [c]
  | c :: rest => c :: stripTrailingCR rest

/-- Split a character sequence at every `'\n'`; always returns at least one
(possibly empty) piece, the unterminated remainder last. -/
def splitOnNewline : List Char → List (List Char)
  | [] => [[]]
  | c :: rest =>
    if c = '\n' then [] :: splitOnNewline rest
    else
      match splitOnNewline rest with
      | [] => [[c]]
      | l :: ls => (c :: l) :: ls

/-- Strip the trailing `'\r'` of every piece except the last: every piece but
the last was terminated by `'\n'` in the original text, so a trailing `'\r'`
there belonged to a `"\r\n"` line ending; the final, unterminated piece keeps
its characters. -/
def stripPieces : List (List Char) → List (List Char)
  | [] => []
  | [l] => [l]
  | l :: rest => stripTrailingCR l :: stripPieces rest

/-- Drop the final piece when it is empty: text ending in `'\n'` has no
unterminated final line. -/
def dropLastEmpty : List (List Char) → List (List Char)
  | [] => []
  | [l] => if l.isEmpty then [] else [l]
  | l :: rest => l :: dropLastEmpty rest

/-- The logical-line split of Rust's `str::lines`, used by `tokenize_string`
(`src/format/stendhal/mod.rs`): lines are split at `'\n'` or `"\r\n"`, and a
final line terminator produces no trailing empty line. -/
def rustLines (cs : List Char) : List (List Char) :=
  dropLastEmpty (stripPieces (splitOnNewline cs))

/-- Strip `p` as a prefix of `cs`: `some` of the remainder when `p` is a
prefix, `none` otherwise. -/
def stripPrefixChars : List Char → List Char → Option (List Char)
  | [], cs => some cs
  | _ :: _, [] => none
  | p :: ps, c :: cs => if c = p then stripPrefixChars ps cs else none

/-- Modelled from the spec: `parse::frontmatter`
(`src/format/stendhal/parse.rs` is absent), §4.1 of the spec: consume the
first three lines; line 1 must start with `"title: "` (remainder is the
title), line 2 must start with `"author: "` (remainder is the author), line 3
must equal `"pages:"` exactly; produce `[Title, Author]` in that order and
hand back the unconsumed lines.  Exhaustion before three lines, and every
structural violation of the three line shapes, fail with the
incomplete-or-missing-frontmatter condition. -/
def frontmatter : List (List Char) → Except TokenizeError (List Metadata × List (List Char))
  | l1 :: l2 :: l3 :: rest =>
    match stripPrefixChars "title: ".data l1, stripPrefixChars "author: ".data l2 with
    | some t, some a =>
      if l3 = "pages:".data then
        Except.ok ([Metadata.Title (String.mk t), Metadata.Author (String.mk a)], rest)
      else Except.error TokenizeError.IncompleteOrMissingFrontmatter
    | _, _ => Except.error TokenizeError.IncompleteOrMissingFrontmatter
  | _ => Except.error TokenizeError.IncompleteOrMissingFrontmatter

/-- Embeds `Stendhal::tokenize_string` (`src/format/stendhal/mod.rs`): split
the input into logical lines, run the frontmatter parser over the first
three, run the line parser over every remaining line in order, and assemble
the token list. -/
def tokenize_string (input : String) : Except TokenizeError TokenList :=
  match frontmatter (rustLines input.data) with
  | Except.error e => Except.error e
  | Except.ok (md, rest) =>
    match tokenizeLines [] rest with
    | Except.error e => Except.error e
    | Except.ok tks => Except.ok ⟨md, tks⟩

/-- One pull from the fallible line source of `tokenize_reader`
(`src/format/stendhal/mod.rs`, the `next!` macro): end of input fails with
the incomplete-or-missing-frontmatter condition, an underlying I/O fault is
propagated as the I/O variant, and otherwise the line and the remaining
source are produced. -/
def pull : List (Except IoError String) →
    Except TokenizeError (String × List (Except IoError String))
  | [] => Except.error TokenizeError.IncompleteOrMissingFrontmatter
  | Except.error e :: _ => Except.error (TokenizeError.Io e)
  | Except.ok l :: rest => Except.ok (l, rest)

/-- The body loop of `tokenize_reader` (`src/format/stendhal/mod.rs`): each
remaining pull either yields a line, fed to `parse::line`, or an I/O fault,
propagated as the I/O variant; end of input ends the loop. -/
def tokenizeReaderBody : List Token → List (Except IoError String) →
    Except TokenizeError (List Token)
  | tokens, [] => Except.ok tokens
  | _, Except.error e :: _ => Except.error (TokenizeError.Io e)
  | tokens, Except.ok l :: rest =>
    match lineChars tokens l.data with
    | Except.ok t2 => tokenizeReaderBody t2 rest
    | Except.error e => Except.error e

/-- Embeds `Stendhal::tokenize_reader` (`src/format/stendhal/mod.rs`): the
buffered line source is modelled as the list of results its pulls would
yield, in order.  Three pulls feed the frontmatter parser as a
three-element chunk; the remaining pulls feed the line parser. -/
def tokenize_reader (input : List (Except IoError String)) : Except TokenizeError TokenList :=
  match pull input with
  | Except.error e => Except.error e
  | Except.ok (l1, r1) =>
    match pull r1 with
    | Except.error e => Except.error e
    | Except.ok (l2, r2) =>
      match pull r2 with
      | Except.error e => Except.error e
      | Except.ok (l3, rest) =>
        match frontmatter [l1.data, l2.data, l3.data] with
        | Except.error e => Except.error e
        | Except.ok (md, _) =>
          match tokenizeReaderBody [] rest with
          | Except.error e => Except.error e
          | Except.ok tks => Except.ok ⟨md, tks⟩

/-- The first format-code fault of a line, scanning left to right exactly as
the character scan does: a trailing `'§'` is the missing-format-code fault, a
`'§'` followed by an unmapped character is the no-such-format-code fault
carrying that character, and a `'§'` followed by a mapped character is
skipped along with its code character. -/
def firstFault : List Char → Option TokenizeError
  | [] => none
  | c :: rest =>
    if c = '§' then
      match rest with
      | [] => some TokenizeError.MissingFormatCode
      | c2 :: rest2 =>
        match minecraft.formatCode c2 with
        | some _ => firstFault rest2
        | none => some (TokenizeError.NoSuchFormatCode c2)
    else firstFault rest

/-- No two adjacent tokens are both text runs: at least one of any adjacent
pair is a non-`Text` token. -/
def notBothText (a b : Token) : Prop := a.is_text = false ∨ b.is_text = false

/-- The last token of the sequence, when there is one, is not a text run. -/
def lastNotText (ts : List Token) : Prop :=
  ∀ t, ts.getLast? = some t → t.is_text = false

/-! ## Helper lemmas -/

theorem string_data_append (s t : String) : (s ++ t).data = s.data ++ t.data := by
  cases s; cases t; rfl

theorem string_mk_data (s : String) : String.mk s.data = s := by
  cases s; rfl

theorem stripPrefixChars_append (p cs : List Char) :
    stripPrefixChars p (p ++ cs) = some cs := by
  induction p with
  | nil => rfl
  | cons c ps ih => simp [stripPrefixChars, ih]

theorem splitOnNewline_append (a b : List Char) (h : '\n' ∉ a) :
    splitOnNewline (a ++ '\n' :: b) = a :: splitOnNewline b := by
  induction a with
  | nil => simp [splitOnNewline]
  | cons c a2 ih =>
    have hc : ¬c = '\n' := fun hh => h (hh ▸ List.mem_cons_self c a2)
    have ha : '\n' ∉ a2 := fun hm => h (List.mem_cons_of_mem _ hm)
    show splitOnNewline (c :: (a2 ++ '\n' :: b)) = (c :: a2) :: splitOnNewline b
    rw [splitOnNewline.eq_def]
    simp only [if_neg hc, ih ha]

theorem stripTrailingCR_eq (l : List Char) (h : '\r' ∉ l) : stripTrailingCR l = l := by
  induction l with
  | nil => rfl
  | cons c rest ih =>
    have hc : ¬c = '\r' := fun hh => h (hh ▸ List.mem_cons_self c rest)
    have hr : '\r' ∉ rest := fun hm => h (List.mem_cons_of_mem _ hm)
    cases rest with
    | nil => simp [stripTrailingCR, hc]
    | cons c2 r2 => simp only [stripTrailingCR, ih hr]

theorem parseChars_nil (tokens : List Token) (buf : List Char) :
    parseChars [] tokens buf = Except.ok (tokens ++ textOf buf ++ [Token.LineBreak]) := rfl

theorem parseChars_sect_nil (tokens : List Token) (buf : List Char) :
    parseChars ['§'] tokens buf = Except.error TokenizeError.MissingFormatCode := rfl

theorem parseChars_sect_some (c2 : Char) (rest2 : List Char) (tokens : List Token)
    (buf : List Char) (f : minecraft.Format) (hf : minecraft.formatCode c2 = some f) :
    parseChars ('§' :: c2 :: rest2) tokens buf =
      parseChars rest2 (tokens ++ textOf buf ++ [Token.Format f]) [] := by
  rw [parseChars.eq_def]; simp [hf]

theorem parseChars_sect_none (c2 : Char) (rest2 : List Char) (tokens : List Token)
    (buf : List Char) (hf : minecraft.formatCode c2 = none) :
    parseChars ('§' :: c2 :: rest2) tokens buf =
      Except.error (TokenizeError.NoSuchFormatCode c2) := by
  rw [parseChars.eq_def]; simp [hf]

theorem parseChars_space (rest : List Char) (tokens : List Token) (buf : List Char) :
    parseChars (' ' :: rest) tokens buf =
      parseChars rest (tokens ++ textOf buf ++ [Token.Space]) [] := by
  rw [parseChars.eq_def]; simp

theorem parseChars_other (c : Char) (rest : List Char) (tokens : List Token)
    (buf : List Char) (h1 : ¬c = '§') (h2 : ¬c = ' ') :
    parseChars (c :: rest) tokens buf = parseChars rest tokens (buf ++ [c]) := by
  rw [parseChars.eq_def]; simp [h1, h2]

theorem firstFault_sect_some (c2 : Char) (rest2 : List Char) (f : minecraft.Format)
    (hf : minecraft.formatCode c2 = some f) :
    firstFault ('§' :: c2 :: rest2) = firstFault rest2 := by
  rw [firstFault.eq_def]; simp [hf]

theorem firstFault_sect_none (c2 : Char) (rest2 : List Char)
    (hf : minecraft.formatCode c2 = none) :
    firstFault ('§' :: c2 :: rest2) = some (TokenizeError.NoSuchFormatCode c2) := by
  rw [firstFault.eq_def]; simp [hf]

theorem firstFault_other (c : Char) (rest : List Char) (h : ¬c = '§') :
    firstFault (c :: rest) = firstFault rest := by
  rw [firstFault.eq_def]; simp [h]

theorem stripPieces_cons_cons (a b : List Char) (r : List (List Char)) :
    stripPieces (a :: b :: r) = stripTrailingCR a :: stripPieces (b :: r) := rfl

theorem dropLastEmpty_cons_cons (a b : List Char) (r : List (List Char)) :
    dropLastEmpty (a :: b :: r) = a :: dropLastEmpty (b :: r) := rfl

theorem notMemAppend {x : Char} {l1 l2 : List Char} (h1 : x ∉ l1) (h2 : x ∉ l2) :
    x ∉ l1 ++ l2 :=
  fun hm => (List.mem_append.mp hm).elim h1 h2

theorem input_data (T A : String) :
    ("title: " ++ T ++ "\nauthor: " ++ A ++ "\npages:").data =
      ("title: ".data ++ T.data) ++
        '\n' :: (("author: ".data ++ A.data) ++ '\n' :: "pages:".data) := by
  have h1 : "\nauthor: ".data = '\n' :: "author: ".data := rfl
  have h2 : "\npages:".data = '\n' :: "pages:".data := rfl
  simp only [string_data_append, h1, h2, List.append_assoc, List.cons_append]

theorem rustLines_header (T A : String) (hT : '\n' ∉ T.data) (hTr : '\r' ∉ T.data)
    (hA : '\n' ∉ A.data) (hAr : '\r' ∉ A.data) :
    rustLines ("title: " ++ T ++ "\nauthor: " ++ A ++ "\npages:").data =
      ["title: ".data ++ T.data, "author: ".data ++ A.data, "pages:".data] := by
  have hTn : '\n' ∉ "title: ".data ++ T.data :=
    notMemAppend (by decide) hT
  have hAn : '\n' ∉ "author: ".data ++ A.data :=
    notMemAppend (by decide) hA
  have hTc : '\r' ∉ "title: ".data ++ T.data :=
    notMemAppend (by decide) hTr
  have hAc : '\r' ∉ "author: ".data ++ A.data :=
    notMemAppend (by decide) hAr
  rw [input_data]
  unfold rustLines
  rw [splitOnNewline_append _ _ hTn, splitOnNewline_append _ _ hAn]
  have hp : splitOnNewline "pages:".data = ["pages:".data] := rfl
  have hps : stripPieces ["pages:".data] = ["pages:".data] := rfl
  rw [hp, stripPieces_cons_cons, stripPieces_cons_cons, hps,
    stripTrailingCR_eq _ hTc, stripTrailingCR_eq _ hAc,
    dropLastEmpty_cons_cons, dropLastEmpty_cons_cons]
  rfl

theorem frontmatter_header (t a : List Char) (rest : List (List Char)) :
    frontmatter (("title: ".data ++ t) :: ("author: ".data ++ a) :: "pages:".data :: rest) =
      Except.ok ([Metadata.Title (String.mk t), Metadata.Author (String.mk a)], rest) := by
  rw [frontmatter.eq_def]
  simp [stripPrefixChars]

theorem parseChars_pre (cs : List Char) (tokens : List Token) (buf : List Char) :
    ∀ pre, parseChars cs (pre ++ tokens) buf =
      Except.map (fun ts => pre ++ ts) (parseChars cs tokens buf) := by
  induction cs, tokens, buf using parseChars.induct with
  | case1 tokens buf =>
    intro pre; simp [parseChars_nil, Except.map, List.append_assoc]
  | case2 tokens buf =>
    intro pre; simp [parseChars_sect_nil, Except.map]
  | case3 tokens buf c2 rest2 f hf ih =>
    intro pre
    rw [parseChars_sect_some c2 rest2 _ _ f hf, parseChars_sect_some c2 rest2 _ _ f hf]
    have h2 := ih pre
    simp only [List.append_assoc] at h2 ⊢
    exact h2
  | case4 tokens buf c2 rest2 hf =>
    intro pre
    rw [parseChars_sect_none c2 rest2 _ _ hf, parseChars_sect_none c2 rest2 _ _ hf]
    rfl
  | case5 rest tokens buf h ih =>
    intro pre
    rw [parseChars_space, parseChars_space]
    have h2 := ih pre
    simp only [List.append_assoc] at h2 ⊢
    exact h2
  | case6 c rest tokens buf h1 h2 ih =>
    intro pre
    rw [parseChars_other c rest _ _ h1 h2, parseChars_other c rest _ _ h1 h2]
    exact ih pre

theorem parseChars_error_iff (cs : List Char) (tokens : List Token) (buf : List Char) :
    ∀ e, parseChars cs tokens buf = Except.error e ↔ firstFault cs = some e := by
  induction cs, tokens, buf using parseChars.induct with
  | case1 tokens buf => intro e; simp [parseChars_nil, firstFault]
  | case2 tokens buf => intro e; simp [parseChars_sect_nil, firstFault]
  | case3 tokens buf c2 rest2 f hf ih =>
    intro e
    rw [parseChars_sect_some c2 rest2 _ _ f hf, firstFault_sect_some c2 rest2 f hf]
    exact ih e
  | case4 tokens buf c2 rest2 hf =>
    intro e
    rw [parseChars_sect_none c2 rest2 _ _ hf, firstFault_sect_none c2 rest2 hf]
    simp
  | case5 rest tokens buf h ih =>
    intro e
    rw [parseChars_space, firstFault_other ' ' rest h]
    exact ih e
  | case6 c rest tokens buf h1 h2 ih =>
    intro e
    rw [parseChars_other c rest _ _ h1 h2, firstFault_other c rest h1]
    exact ih e

theorem chainAppendOne (ts : List Token) (b : Token)
    (hc : List.Chain' notBothText ts) (hb : b.is_text = false) :
    List.Chain' notBothText (ts ++ [b]) ∧ lastNotText (ts ++ [b]) := by
  constructor
  · rw [List.chain'_append]
    refine ⟨hc, List.chain'_singleton b, fun x hx y hy => ?_⟩
    have hyb : b = y := by simpa using hy
    exact Or.inr (hyb ▸ hb)
  · intro t ht
    rw [List.getLast?_concat] at ht
    cases ht
    exact hb

theorem chainAppendText (ts : List Token) (s : String)
    (hc : List.Chain' notBothText ts) (hl : lastNotText ts) :
    List.Chain' notBothText (ts ++ [Token.Text s]) := by
  rw [List.chain'_append]
  refine ⟨hc, List.chain'_singleton _, fun x hx y hy => ?_⟩
  exact Or.inl (hl x hx)

theorem chainAppendBlock (ts : List Token) (buf : List Char) (b : Token)
    (hc : List.Chain' notBothText ts) (hl : lastNotText ts) (hb : b.is_text = false) :
    List.Chain' notBothText (ts ++ textOf buf ++ [b]) ∧
      lastNotText (ts ++ textOf buf ++ [b]) := by
  unfold textOf
  split
  · rw [List.append_nil]
    exact chainAppendOne ts b hc hb
  · exact chainAppendOne (ts ++ [(Token.fromBuffer buf).1]) b
      (chainAppendText ts (String.mk buf) hc hl) hb

theorem parseChars_chain (cs : List Char) (tokens : List Token) (buf : List Char) :
    ∀ out, List.Chain' notBothText tokens → lastNotText tokens →
      parseChars cs tokens buf = Except.ok out →
      List.Chain' notBothText out ∧ lastNotText out := by
  induction cs, tokens, buf using parseChars.induct with
  | case1 tokens buf =>
    intro out hc hl hok
    rw [parseChars_nil] at hok
    injection hok with h
    subst h
    exact chainAppendBlock tokens buf Token.LineBreak hc hl rfl
  | case2 tokens buf =>
    intro out hc hl hok
    rw [parseChars_sect_nil] at hok
    exact absurd hok (by simp)
  | case3 tokens buf c2 rest2 f hf ih =>
    intro out hc hl hok
    rw [parseChars_sect_some c2 rest2 _ _ f hf] at hok
    have hb := chainAppendBlock tokens buf (Token.Format f) hc hl rfl
    exact ih out hb.1 hb.2 hok
  | case4 tokens buf c2 rest2 hf =>
    intro out hc hl hok
    rw [parseChars_sect_none c2 rest2 _ _ hf] at hok
    exact absurd hok (by simp)
  | case5 rest tokens buf h ih =>
    intro out hc hl hok
    rw [parseChars_space] at hok
    have hb := chainAppendBlock tokens buf Token.Space hc hl rfl
    exact ih out hb.1 hb.2 hok
  | case6 c rest tokens buf h1 h2 ih =>
    intro out hc hl hok
    rw [parseChars_other c rest _ _ h1 h2] at hok
    exact ih out hc hl hok

theorem lineChars_chain (cs : List Char) (tokens out : List Token)
    (hc : List.Chain' notBothText tokens) (hl : lastNotText tokens)
    (hok : lineChars tokens cs = Except.ok out) :
    List.Chain' notBothText out ∧ lastNotText out := by
  unfold lineChars at hok
  split at hok
  · next rest =>
    have hb := chainAppendOne tokens Token.ThematicBreak hc rfl
    exact parseChars_chain rest _ [] out hb.1 hb.2 hok
  · exact parseChars_chain cs tokens [] out hc hl hok

theorem tokenizeLines_cons (tokens : List Token) (l : List Char) (ls : List (List Char)) :
    tokenizeLines tokens (l :: ls) =
      match lineChars tokens l with
      | Except.ok t2 => tokenizeLines t2 ls
      | Except.error e => Except.error e := rfl

theorem tokenizeLines_chain (lines : List (List Char)) :
    ∀ tokens out, List.Chain' notBothText tokens → lastNotText tokens →
      tokenizeLines tokens lines = Except.ok out →
      List.Chain' notBothText out ∧ lastNotText out := by
  induction lines with
  | nil =>
    intro tokens out hc hl hok
    injection hok with h
    subst h
    exact ⟨hc, hl⟩
  | cons l ls ih =>
    intro tokens out hc hl hok
    rw [tokenizeLines_cons] at hok
    cases hlc : lineChars tokens l with
    | ok t2 =>
      rw [hlc] at hok
      have h2 := lineChars_chain l tokens t2 hc hl hlc
      exact ih t2 out h2.1 h2.2 hok
    | error e =>
      rw [hlc] at hok
      exact absurd hok (by simp)

theorem tokenizeReaderBody_cons_ok (tokens : List Token) (l : String)
    (rest : List (Except IoError String)) :
    tokenizeReaderBody tokens (Except.ok l :: rest) =
      match lineChars tokens l.data with
      | Except.ok t2 => tokenizeReaderBody t2 rest
      | Except.error e => Except.error e := rfl

theorem tokenizeReaderBody_chain (input : List (Except IoError String)) :
    ∀ tokens out, List.Chain' notBothText tokens → lastNotText tokens →
      tokenizeReaderBody tokens input = Except.ok out →
      List.Chain' notBothText out ∧ lastNotText out := by
  induction input with
  | nil =>
    intro tokens out hc hl hok
    injection hok with h
    subst h
    exact ⟨hc, hl⟩
  | cons r rs ih =>
    intro tokens out hc hl hok
    cases r with
    | error e => exact absurd hok (by simp [tokenizeReaderBody])
    | ok l =>
      rw [tokenizeReaderBody_cons_ok] at hok
      cases hlc : lineChars tokens l.data with
      | ok t2 =>
        rw [hlc] at hok
        have h2 := lineChars_chain l.data tokens t2 hc hl hlc
        exact ih t2 out h2.1 h2.2 hok
      | error e =>
        rw [hlc] at hok
        exact absurd hok (by simp)

theorem lastNotText_nil : lastNotText [] := fun t ht => by cases ht

theorem lineChars_error_iff (cs : List Char) (tokens : List Token) (e : TokenizeError) :
    lineChars tokens cs = Except.error e ↔ firstFault cs = some e := by
  unfold lineChars
  split
  · next rest =>
    rw [(parseChars_error_iff rest (tokens ++ [Token.ThematicBreak]) []) e]
    rw [firstFault_other '#' _ (by decide), firstFault_other '-' _ (by decide),
      firstFault_other ' ' _ (by decide)]
  · exact (parseChars_error_iff cs tokens []) e

theorem tokenizeReaderBody_ok_append (body : List String) :
    ∀ (tokens out : List Token) (e : IoError) (rest : List (Except IoError String)),
      tokenizeReaderBody tokens (body.map Except.ok) = Except.ok out →
      tokenizeReaderBody tokens (body.map Except.ok ++ Except.error e :: rest) =
        Except.error (TokenizeError.Io e) := by
  induction body with
  | nil => intro tokens out e rest h; rfl
  | cons b bs ih =>
    intro tokens out e rest h
    simp only [List.map_cons, List.cons_append] at h ⊢
    rw [tokenizeReaderBody_cons_ok] at h ⊢
    cases hl : lineChars tokens b.data with
    | ok t2 =>
      rw [hl] at h
      simp only [] at h ⊢
      exact ih t2 out e rest h
    | error e2 =>
      rw [hl] at h
      exact absurd h (by simp)

end Stendhal

/-! ## Claims -/

namespace Stendhal

/-- C1 (amended): tokenizing the worked example's frontmatter plus the body
line `"#- Italic:§o text §rreset"` (the `"##-"` spelling in the module doc
comment is rustdoc's line-hiding escape, which a doc-test compiles to a
literal `"#-"`) succeeds with exactly the metadata
`[Title "crafty_novels", Author "RemasteredArch"]` and the token sequence
`[ThematicBreak, Text "Italic:", Format Italic, Space, Text "text", Space,
Format Reset, Text "reset", LineBreak]`. -/
theorem tokenize_string_doc_example :
    tokenize_string
        "title: crafty_novels\nauthor: RemasteredArch\npages:\n#- Italic:§o text §rreset" =
      Except.ok ⟨[Metadata.Title "crafty_novels", Metadata.Author "RemasteredArch"],
        [Token.ThematicBreak, Token.Text "Italic:", Token.Format minecraft.Format.Italic,
         Token.Space, Token.Text "text", Token.Space, Token.Format minecraft.Format.Reset,
         Token.Text "reset", Token.LineBreak]⟩ := by decide

/-- C1 counterexample: on the body line written literally with a double hash,
`"##- Italic:§o text §rreset"`, exactly as the claim states it, the tokenizer
succeeds but does not produce the claimed token sequence: the line does not
begin with the `"#- "` page prefix, so its leading characters become a text
run instead of a `ThematicBreak`. -/
theorem tokenize_string_double_hash_counterexample :
    tokenize_string
        "title: crafty_novels\nauthor: RemasteredArch\npages:\n##- Italic:§o text §rreset" =
      Except.ok ⟨[Metadata.Title "crafty_novels", Metadata.Author "RemasteredArch"],
        [Token.Text "##-", Token.Space, Token.Text "Italic:",
         Token.Format minecraft.Format.Italic, Token.Space, Token.Text "text", Token.Space,
         Token.Format minecraft.Format.Reset, Token.Text "reset", Token.LineBreak]⟩ ∧
    tokenize_string
        "title: crafty_novels\nauthor: RemasteredArch\npages:\n##- Italic:§o text §rreset" ≠
      Except.ok ⟨[Metadata.Title "crafty_novels", Metadata.Author "RemasteredArch"],
        [Token.ThematicBreak, Token.Text "Italic:", Token.Format minecraft.Format.Italic,
         Token.Space, Token.Text "text", Token.Space, Token.Format minecraft.Format.Reset,
         Token.Text "reset", Token.LineBreak]⟩ := by decide

/-- C2: for every title `T` and author `A` (line contents, i.e. containing
no line terminator characters), tokenizing the three-line input
`"title: T\nauthor: A\npages:"` with no body lines succeeds with exactly the
metadata `[Title T, Author A]`, in that order, and an empty token
sequence. -/
theorem tokenize_string_frontmatter_only (T A : String)
    (hT : '\n' ∉ T.data) (hTr : '\r' ∉ T.data)
    (hA : '\n' ∉ A.data) (hAr : '\r' ∉ A.data) :
    tokenize_string ("title: " ++ T ++ "\nauthor: " ++ A ++ "\npages:") =
      Except.ok ⟨[Metadata.Title T, Metadata.Author A], []⟩ := by
  unfold tokenize_string
  rw [rustLines_header T A hT hTr hA hAr, frontmatter_header]
  simp [tokenizeLines, string_mk_data]

/-- C2 witness: the frontmatter-only property at the concrete title
`"crafty_novels"` and author `"RemasteredArch"`. -/
theorem tokenize_string_frontmatter_only_witness :
    tokenize_string "title: crafty_novels\nauthor: RemasteredArch\npages:" =
      Except.ok ⟨[Metadata.Title "crafty_novels", Metadata.Author "RemasteredArch"], []⟩ :=
  tokenize_string_frontmatter_only "crafty_novels" "RemasteredArch"
    (by decide) (by decide) (by decide) (by decide)

/-- C3 (amended): a body line fails with the missing-format-code error
exactly when the first format-code fault of the line, scanning left to
right, is a line-final `'§'`; and it fails with the no-such-format-code
error carrying a character `c` exactly when the first fault is a `'§'`
followed by the unmapped character `c`.  An earlier fault in the same line
wins: a line that both contains an unmapped code and ends in `'§'` reports
the earlier fault. -/
theorem line_format_code_faults (line : String) :
    (firstFault line.data = some TokenizeError.MissingFormatCode →
      ∀ tokens, lineChars tokens line.data =
        Except.error TokenizeError.MissingFormatCode) ∧
    (∀ c, firstFault line.data = some (TokenizeError.NoSuchFormatCode c) →
      ∀ tokens, lineChars tokens line.data =
        Except.error (TokenizeError.NoSuchFormatCode c)) := by
  constructor
  · intro h tokens
    exact (lineChars_error_iff line.data tokens _).mpr h
  · intro c h tokens
    exact (lineChars_error_iff line.data tokens _).mpr h

/-- C3 witness: the line `"ab§"` fails with the missing-format-code error,
and the line `"a§zb"` fails with the no-such-format-code error carrying
`'z'`. -/
theorem line_format_code_faults_witness :
    lineChars [] "ab§".data = Except.error TokenizeError.MissingFormatCode ∧
    lineChars [] "a§zb".data = Except.error (TokenizeError.NoSuchFormatCode 'z') :=
  ⟨(line_format_code_faults "ab§").1 (by decide) [],
   (line_format_code_faults "a§zb").2 'z' (by decide) []⟩

/-- C3 counterexample: the line `"§z§"` ends in `'§'` with no following
character, yet parsing it fails with the no-such-format-code error for the
earlier `'z'`, not with the missing-format-code error the claim requires for
every such line. -/
theorem line_trailing_sect_counterexample :
    "§z§".data.getLast? = some '§' ∧
    lineChars [] "§z§".data = Except.error (TokenizeError.NoSuchFormatCode 'z') ∧
    Except.error (α := List Token) (TokenizeError.NoSuchFormatCode 'z') ≠
      Except.error TokenizeError.MissingFormatCode := by decide

/-- C4: in `tokenize_reader`, (1) a line source that reaches end of input
before three frontmatter lines have been pulled fails with the
incomplete-or-missing-frontmatter error; (2) a pull that yields an
underlying I/O error during the frontmatter phase propagates it as the I/O
variant, not as a frontmatter-shape error; (3) likewise during the body
phase, after a well-formed frontmatter and successfully parsed body
lines. -/
theorem tokenize_reader_eof_and_io :
    (∀ ls : List String, ls.length < 3 →
      tokenize_reader (ls.map Except.ok) =
        Except.error TokenizeError.IncompleteOrMissingFrontmatter) ∧
    (∀ (pre : List String) (e : IoError) (rest : List (Except IoError String)),
      pre.length < 3 →
      tokenize_reader (pre.map Except.ok ++ Except.error e :: rest) =
        Except.error (TokenizeError.Io e)) ∧
    (∀ (T A : String) (body : List String) (e : IoError)
        (rest : List (Except IoError String)) (out : List Token),
      tokenizeReaderBody [] (body.map Except.ok) = Except.ok out →
      tokenize_reader (Except.ok ("title: " ++ T) :: Except.ok ("author: " ++ A) ::
          Except.ok "pages:" :: (body.map Except.ok ++ Except.error e :: rest)) =
        Except.error (TokenizeError.Io e)) := by
  refine ⟨?_, ?_, ?_⟩
  · intro ls h
    match ls with
    | [] => rfl
    | [a] => rfl
    | [a, b] => rfl
    | a :: b :: c :: r => simp only [List.length_cons] at h; omega
  · intro pre e rest h
    match pre with
    | [] => rfl
    | [a] => rfl
    | [a, b] => rfl
    | a :: b :: c :: r => simp only [List.length_cons] at h; omega
  · intro T A body e rest out h
    show (match frontmatter [("title: " ++ T).data, ("author: " ++ A).data,
        "pages:".data] with
      | Except.error e => Except.error e
      | Except.ok (md, _) =>
        match tokenizeReaderBody [] (body.map Except.ok ++ Except.error e :: rest) with
        | Except.error e => Except.error e
        | Except.ok tks => Except.ok (TokenList.mk md tks)) =
        Except.error (TokenizeError.Io e)
    rw [string_data_append, string_data_append, frontmatter_header,
      tokenizeReaderBody_ok_append body [] out e rest h]

/-- C4 witness: the three behaviors at concrete inputs: a one-line source, a
source whose second pull is an I/O fault, and a source whose fifth pull (in
the body) is an I/O fault. -/
theorem tokenize_reader_eof_and_io_witness :
    tokenize_reader [Except.ok "title: t"] =
      Except.error Stendhal.TokenizeError.IncompleteOrMissingFrontmatter ∧
    tokenize_reader [Except.ok "title: t", Except.error ⟨3⟩] =
      Except.error (Stendhal.TokenizeError.Io ⟨3⟩) ∧
    tokenize_reader [Except.ok "title: t", Except.ok "author: a", Except.ok "pages:",
        Except.ok "#- hi", Except.error ⟨7⟩] =
      Except.error (Stendhal.TokenizeError.Io ⟨7⟩) :=
  ⟨tokenize_reader_eof_and_io.1 ["title: t"] (by decide),
   tokenize_reader_eof_and_io.2.1 ["title: t"] ⟨3⟩ [] (by decide),
   tokenize_reader_eof_and_io.2.2 "t" "a" ["#- hi"] ⟨7⟩ []
     [Token.ThematicBreak, Token.Text "hi", Token.LineBreak] (by decide)⟩

/-- C6: a body line beginning with the three-character prefix `"#- "` (hash,
dash, space) is tokenized as `ThematicBreak` first, followed by the ordinary
content tokenization of the rest of the line; in particular
`"#- Chapter One"` yields `ThematicBreak` followed by the tokenization of
`"Chapter One"`. -/
theorem line_thematic_break_prefix :
    (∀ rest : List Char, lineChars [] ('#' :: '-' :: ' ' :: rest) =
      Except.map (fun ts => Token.ThematicBreak :: ts) (parseChars rest [] [])) ∧
    lineChars [] "#- Chapter One".data =
      Except.map (fun ts => Token.ThematicBreak :: ts)
        (parseChars "Chapter One".data [] []) ∧
    parseChars "Chapter One".data [] [] =
      Except.ok [Token.Text "Chapter", Token.Space, Token.Text "One", Token.LineBreak] := by
  refine ⟨?_, ?_, by decide⟩
  · intro rest
    exact parseChars_pre rest [] [] [Token.ThematicBreak]
  · exact parseChars_pre "Chapter One".data [] [] [Token.ThematicBreak]

/-- C8: in every `TokenList` successfully produced by either tokenizer entry
point, no two adjacent tokens are both `Text` tokens: of any adjacent pair,
at least one is a non-text token. -/
theorem no_adjacent_text_tokens :
    (∀ (input : String) (tl : TokenList), tokenize_string input = Except.ok tl →
      List.Chain' notBothText tl.tokens) ∧
    (∀ (input : List (Except IoError String)) (tl : TokenList),
      tokenize_reader input = Except.ok tl → List.Chain' notBothText tl.tokens) := by
  constructor
  · intro input tl h
    unfold tokenize_string at h
    split at h
    · exact absurd h (by simp)
    · split at h
      · exact absurd h (by simp)
      · injection h with h2
        subst h2
        exact (tokenizeLines_chain _ [] _ List.chain'_nil lastNotText_nil
          (by assumption)).1
  · intro input tl h
    unfold tokenize_reader at h
    split at h
    · exact absurd h (by simp)
    · split at h
      · exact absurd h (by simp)
      · split at h
        · exact absurd h (by simp)
        · split at h
          · exact absurd h (by simp)
          · split at h
            · exact absurd h (by simp)
            · injection h with h2
              subst h2
              exact (tokenizeReaderBody_chain _ [] _ List.chain'_nil lastNotText_nil
                (by assumption)).1

/-- C8 witness: the token sequence of the worked example, as produced by
`tokenize_string`, has no two adjacent text tokens; likewise the empty token
sequence produced by `tokenize_reader` on a frontmatter-only source. -/
theorem no_adjacent_text_tokens_witness :
    List.Chain' notBothText
      [Token.ThematicBreak, Token.Text "Italic:", Token.Format minecraft.Format.Italic,
       Token.Space, Token.Text "text", Token.Space, Token.Format minecraft.Format.Reset,
       Token.Text "reset", Token.LineBreak] ∧
    List.Chain' notBothText ([] : List Token) :=
  ⟨no_adjacent_text_tokens.1
      "title: crafty_novels\nauthor: RemasteredArch\npages:\n#- Italic:§o text §rreset"
      ⟨[Metadata.Title "crafty_novels", Metadata.Author "RemasteredArch"],
       [Token.ThematicBreak, Token.Text "Italic:", Token.Format minecraft.Format.Italic,
        Token.Space, Token.Text "text", Token.Space, Token.Format minecraft.Format.Reset,
        Token.Text "reset", Token.LineBreak]⟩ (by decide),
   no_adjacent_text_tokens.2
      [Except.ok "title: t", Except.ok "author: a", Except.ok "pages:"]
      ⟨[Metadata.Title "t", Metadata.Author "a"], []⟩ (by decide)⟩

end Stendhal

/-- C5: the conversion from the crate-level `Error` enum to the unified
`TokenizeError` enum maps `InvalidFormatCodeString`, `NoSuchFormatCode`,
`MissingFormatCode`, `UnexpectedEndOfIter` and
`IncompleteOrMissingFrontmatter` to `MalformedSyntaxItem`;
`NoSuchCharLiteral` to `NoSuchSyntaxItem`; `UnexpectedToken` to
`UnexpectedSyntaxItem`; and `Io`, `Fmt` and `Utf8` each to their own
distinct variant carrying the underlying fault. -/
theorem fromError_unification :
    (∀ s, error.TokenizeError.fromError (error.Error.InvalidFormatCodeString s) =
      error.TokenizeError.MalformedSyntaxItem) ∧
    (∀ c, error.TokenizeError.fromError (error.Error.NoSuchFormatCode c) =
      error.TokenizeError.MalformedSyntaxItem) ∧
    (error.TokenizeError.fromError error.Error.MissingFormatCode =
      error.TokenizeError.MalformedSyntaxItem) ∧
    (error.TokenizeError.fromError error.Error.UnexpectedEndOfIter =
      error.TokenizeError.MalformedSyntaxItem) ∧
    (error.TokenizeError.fromError error.Error.IncompleteOrMissingFrontmatter =
      error.TokenizeError.MalformedSyntaxItem) ∧
    (∀ c, error.TokenizeError.fromError (error.Error.NoSuchCharLiteral c) =
      error.TokenizeError.NoSuchSyntaxItem) ∧
    (∀ t, error.TokenizeError.fromError (error.Error.UnexpectedToken t) =
      error.TokenizeError.UnexpectedSyntaxItem) ∧
    (∀ e, error.TokenizeError.fromError (error.Error.Io e) = error.TokenizeError.Io e) ∧
    (∀ e, error.TokenizeError.fromError (error.Error.Fmt e) = error.TokenizeError.Fmt e) ∧
    (∀ e, error.TokenizeError.fromError (error.Error.Utf8 e) =
      error.TokenizeError.Utf8 e) :=
  ⟨fun _ => rfl, fun _ => rfl, rfl, rfl, rfl, fun _ => rfl, fun _ => rfl,
   fun _ => rfl, fun _ => rfl, fun _ => rfl⟩

/-- C7: equality of `TokenList` values is structural: two token lists are
equal exactly when their metadata sequences agree at every index and their
token sequences agree at every index. -/
theorem tokenList_eq_iff (a b : TokenList) :
    a = b ↔ (∀ n, a.metadata.get? n = b.metadata.get? n) ∧
      (∀ n, a.tokens.get? n = b.tokens.get? n) := by
  constructor
  · rintro rfl
    exact ⟨fun _ => rfl, fun _ => rfl⟩
  · rintro ⟨h1, h2⟩
    cases a
    cases b
    simp only [TokenList.mk.injEq]
    exact ⟨List.ext_get?_iff.mpr h1, List.ext_get?_iff.mpr h2⟩

/-- C7 witness: structural equality applied at concrete token lists. -/
theorem tokenList_eq_iff_witness :
    TokenList.mk [Metadata.Title "t"] [Token.Space] =
      TokenList.mk [Metadata.Title "t"] [Token.Space] :=
  (tokenList_eq_iff _ _).mpr ⟨fun _ => rfl, fun _ => rfl⟩

/-- C9: `is_white_space` and `is_break` agree on every token; in particular
`is_break` classifies `Space` as a break token. -/
theorem is_white_space_eq_is_break :
    (∀ t : Token, t.is_white_space = t.is_break) ∧ Token.Space.is_break = true := by
  refine ⟨fun t => ?_, rfl⟩
  cases t <;> rfl

/-- C10: draining a character buffer into a token yields `Text` holding
exactly the buffer's former characters in order and leaves the buffer empty;
on an already-empty buffer it yields the empty text run `Text ""`, with no
guard against emptiness. -/
theorem fromBuffer_drains :
    (∀ v : List Char, ∃ s : String,
      Token.fromBuffer v = (Token.Text s, []) ∧ s.data = v) ∧
    Token.fromBuffer [] = (Token.Text "", []) :=
  ⟨fun v => ⟨String.mk v, rfl, rfl⟩, rfl⟩

